import Mathlib

/-!
Shallow embedding of the client-side sort/select/paginate logic of the
`DataTable` component (src/components/DataTable/DataTable.tsx), together
with theorems settling the specification's claims about it.
-/

namespace DataTable

/-- Values of the JavaScript fields the DataTable logic inspects: strings,
numbers (embedded as integers), booleans, `null` and `undefined`. -/
inductive Value where
  | vStr (s : String)
  | vNum (n : Int)
  | vBool (b : Bool)
  | vNull
  | vUndefined
deriving DecidableEq

/-- JavaScript `===` on the embedded values (same type and same content;
distinct constructors are never `===`-equal, in particular `null` and
`undefined` are not). -/
def jsEq : Value → Value → Bool
  | .vStr s, .vStr t => s == t
  | .vNum m, .vNum n => m == n
  | .vBool a, .vBool b => a == b
  | .vNull, .vNull => true
  | .vUndefined, .vUndefined => true
  | _, _ => false

/-- The test `v === null || v === undefined` used by the comparator. -/
def isNullish : Value → Bool
  | .vNull => true
  | .vUndefined => true
  | _ => false

/-- The test `typeof v === 'string'`. -/
def isStr : Value → Bool
  | .vStr _ => true
  | _ => false

/-- The test `typeof v === 'number'`. -/
def isNum : Value → Bool
  | .vNum _ => true
  | _ => false

/-- JavaScript `String(v)` coercion for the embedded values. -/
def jsToString : Value → String
  | .vStr s => s
  | .vNum n => toString n
  | .vBool b => if b then "true" else "false"
  | .vNull => "null"
  | .vUndefined => "undefined"

/-- Lexicographic order on character lists by code point, the embedding of
the string ordering underlying `String.prototype.localeCompare`. -/
def strLt : List Char → List Char → Bool
  | [], [] => false
  | [], _ :: _ => true
  | _ :: _, [] => false
  | a :: as, b :: bs =>
      if a.toNat < b.toNat then true
      else if b.toNat < a.toNat then false
      else strLt as bs

/-- Embedding of `a.localeCompare(b)` normalised to `-1`/`0`/`1`. -/
def localeCompare (s t : String) : Int :=
  if strLt s.data t.data then -1
  else if strLt t.data s.data then 1
  else 0

/-- Sort direction, `'asc' | 'desc'` in the source. -/
inductive Direction where
  | asc
  | desc
deriving DecidableEq

/-- The final step of the comparator:
`return sortState.direction === 'asc' ? comparison : -comparison`. -/
def applyDirection (dir : Direction) (comparison : Int) : Int :=
  if dir = .asc then comparison else -comparison

/-- The `comparison` value computed by the comparator for two defined
values: two strings use `localeCompare`, two numbers use subtraction, and
any other combination is string-coerced and compared with `localeCompare`. -/
def baseComparison (aValue bValue : Value) : Int :=
  match aValue, bValue with
  | .vStr s, .vStr t => localeCompare s t
  | .vNum m, .vNum n => m - n
  | _, _ => localeCompare (jsToString aValue) (jsToString bValue)

/-- The comparator body of `sortedData` applied to the two extracted field
values `aValue`/`bValue`:
equal (`===`) values compare `0`; then a `null`/`undefined` left value
returns `1` and a `null`/`undefined` right value returns `-1` (before the
direction flag is consulted); otherwise the `comparison` of the two defined
values is computed and negated when the direction is descending. -/
def compareValues (dir : Direction) (aValue bValue : Value) : Int :=
  if jsEq aValue bValue then 0
  else if isNullish aValue then 1
  else if isNullish bValue then -1
  else applyDirection dir (baseComparison aValue bValue)

/-- A record supplied by the caller: a finite mapping from field names to
values, embedded as an association list. -/
abbrev Row := List (String × Value)

/-- Field access `record[key]`; a missing field reads as `undefined`. -/
def getField (record : Row) (key : String) : Value :=
  match record.lookup key with
  | some v => v
  | none => .vUndefined

/-- The active sort state `{ key, direction }`. -/
structure SortState where
  key : String
  direction : Direction
deriving DecidableEq

/-- The comparator of `sortedData` on whole records: it extracts
`a[sortState.key]` and `b[sortState.key]` and compares them. -/
def rowCompare (st : SortState) (a b : Row) : Int :=
  compareValues st.direction (getField a st.key) (getField b st.key)

/-- Ordering relation induced by the comparator; a stable sort places `a`
no later than `b` when the comparator result is non-positive. -/
def rowLe (st : SortState) (a b : Row) : Prop :=
  rowCompare st a b ≤ 0

instance (st : SortState) : DecidableRel (rowLe st) :=
  fun a b => inferInstanceAs (Decidable (rowCompare st a b ≤ 0))

/-- The `sortedData` memo: with no sort state the input collection is
returned unchanged; otherwise a copy of the input is sorted with the
comparator by a stable sort (JavaScript `Array.prototype.sort` is stable;
the embedding uses insertion sort, which is stable). -/
def sortedData (sortState : Option SortState) (data : List Row) : List Row :=
  match sortState with
  | none => data
  | some st => List.insertionSort (rowLe st) data

/-- The parts of a column descriptor that the sorting logic reads. -/
structure Column where
  key : String
  title : String
  dataIndex : String
  sortable : Bool

/-- The `handleSort` click handler's state update: a non-sortable column is
ignored; otherwise no previous state or a different key yields ascending on
the clicked key, ascending yields descending, and descending yields no sort
state. -/
def handleSort (column : Column) (prev : Option SortState) : Option SortState :=
  if !column.sortable then prev
  else
    match prev with
    | none => some ⟨column.key, .asc⟩
    | some p =>
        if p.key ≠ column.key then some ⟨column.key, .asc⟩
        else if p.direction = .asc then some ⟨column.key, .desc⟩
        else none

/-- The caller's `rowKey` prop: absent, a field name, or a function of the
record. -/
inductive RowKeySpec where
  | auto
  | field (f : String)
  | fn (g : Row → String)

/-- The `getRowKey` callback: a function prop is applied to the record, a
field-name prop reads the field and coerces it with `String(...)`, and an
absent prop falls back to `String(index)` in the current sorted order. -/
def getRowKey (rowKey : RowKeySpec) (record : Row) (index : Nat) : String :=
  match rowKey with
  | .fn g => g record
  | .field f => jsToString (getField record f)
  | .auto => toString index

/-- The props the selection and sorting logic reads. -/
structure Props where
  data : List Row
  rowKey : RowKeySpec

/-- The component's own state: active sort state, selected row keys
(a `Set<string>` in the source), and the select-all flag. -/
structure TState where
  sortState : Option SortState
  selectedRows : Finset String
  selectAll : Bool

/-- The initial component state. -/
def initState : TState :=
  ⟨none, ∅, false⟩

/-- The current sorted view derived from the props and the sort state. -/
def viewOf (props : Props) (st : TState) : List Row :=
  sortedData st.sortState props.data

/-- Row keys of a view in order, `view.map((record, index) => getRowKey(record, index))`. -/
def keysWithIndex (rowKey : RowKeySpec) : Nat → List Row → List String
  | _, [] => []
  | i, r :: rest => getRowKey rowKey r i :: keysWithIndex rowKey (i + 1) rest

/-- The set of row identities derivable from the current sorted view. -/
def viewKeys (props : Props) (st : TState) : Finset String :=
  (keysWithIndex props.rowKey 0 (viewOf props st)).toFinset

/-- The resolution of selected records performed before invoking the
`onRowSelect` callback:
`sortedData.filter((record, index) => selected.has(getRowKey(record, index)))`. -/
def selectedData (rowKey : RowKeySpec) (selected : Finset String) (view : List Row) : List Row :=
  (view.enum.filter (fun p => decide (getRowKey rowKey p.2 p.1 ∈ selected))).map Prod.snd

/-- Result of a selection event handler: the updated component state and
the argument passed to the `onRowSelect` callback (when one is supplied). -/
structure SelectResult where
  state : TState
  callbackArg : List Row

/-- The `handleRowSelect` handler: copy the selected set, insert or delete
the toggled key, recompute the select-all flag as `size === sortedData.length`,
and resolve the callback argument by filtering the current sorted view
against the updated set. -/
def handleRowSelect (props : Props) (st : TState) (key : String) (checked : Bool) :
    SelectResult :=
  let newSelectedRows := if checked then insert key st.selectedRows else st.selectedRows.erase key
  let view := viewOf props st
  { state :=
      { st with
        selectedRows := newSelectedRows
        selectAll := decide (newSelectedRows.card = view.length) }
    callbackArg := selectedData props.rowKey newSelectedRows view }

/-- The `handleSelectAll` handler: checked replaces the selected set by the
keys of every record of the current sorted view and passes the whole view
to the callback; unchecked empties the set and passes an empty list. -/
def handleSelectAll (props : Props) (st : TState) (checked : Bool) : SelectResult :=
  if checked then
    let view := viewOf props st
    let allRowKeys := keysWithIndex props.rowKey 0 view
    { state := { st with selectedRows := allRowKeys.toFinset, selectAll := true }
      callbackArg := view }
  else
    { state := { st with selectedRows := ∅, selectAll := false }
      callbackArg := [] }

/-- A header click: `handleSort` updates only the sort state. -/
def clickHeader (column : Column) (st : TState) : TState :=
  { st with sortState := handleSort column st.sortState }

/-- The caller-owned pagination descriptor (without the callback). -/
structure Pagination where
  current : Nat
  pageSize : Nat
  total : Nat

/-- First displayed index: `((current - 1) * pageSize) + 1`. -/
def firstShownIndex (p : Pagination) : Nat :=
  (p.current - 1) * p.pageSize + 1

/-- Last displayed index: `Math.min(current * pageSize, total)`. -/
def lastShownIndex (p : Pagination) : Nat :=
  min (p.current * p.pageSize) p.total

/-- Total page count `Math.ceil(total / pageSize)`, embedded as ceiling
division on naturals. -/
def totalPages (p : Pagination) : Nat :=
  (p.total + p.pageSize - 1) / p.pageSize

/-- The Previous button's disabled test `current === 1`. -/
def prevDisabled (p : Pagination) : Bool :=
  p.current == 1

/-- The Next button's disabled test `current >= Math.ceil(total / pageSize)`. -/
def nextDisabled (p : Pagination) : Bool :=
  decide (totalPages p ≤ p.current)

/-- Component states reachable through the UI: from the initial state, the
caller may replace the props at any time (the component state persists),
and the user may click a header, toggle the checkbox of a rendered row
(whose key therefore comes from the current sorted view), or toggle the
select-all checkbox. -/
inductive Reachable : Props → TState → Prop where
  | init (props : Props) : Reachable props initState
  | newProps (props props' : Props) (st : TState) :
      Reachable props st → Reachable props' st
  | header (props : Props) (st : TState) (column : Column) :
      Reachable props st → Reachable props (clickHeader column st)
  | rowToggle (props : Props) (st : TState) (key : String) (checked : Bool) :
      key ∈ keysWithIndex props.rowKey 0 (viewOf props st) →
      Reachable props st → Reachable props (handleRowSelect props st key checked).state
  | selAll (props : Props) (st : TState) (checked : Bool) :
      Reachable props st → Reachable props (handleSelectAll props st checked).state

/-- Component states reachable while the caller holds the props fixed. -/
inductive ReachableFixed (props : Props) : TState → Prop where
  | init : ReachableFixed props initState
  | header (st : TState) (column : Column) :
      ReachableFixed props st → ReachableFixed props (clickHeader column st)
  | rowToggle (st : TState) (key : String) (checked : Bool) :
      key ∈ keysWithIndex props.rowKey 0 (viewOf props st) →
      ReachableFixed props st → ReachableFixed props (handleRowSelect props st key checked).state
  | selAll (st : TState) (checked : Bool) :
      ReachableFixed props st → ReachableFixed props (handleSelectAll props st checked).state

/-! ### Basic facts about the comparator -/

theorem strLt_irrefl (x : List Char) : strLt x x = false := by
  induction x with
  | nil => rfl
  | cons a as ih => simp [strLt, ih]

theorem strLt_asymm (x y : List Char) (h : strLt x y = true) : strLt y x = false := by
  induction x generalizing y with
  | nil =>
      cases y with
      | nil => rfl
      | cons b bs => rfl
  | cons a as ih =>
      cases y with
      | nil => simp [strLt] at h
      | cons b bs =>
          simp only [strLt] at h ⊢
          by_cases hab : a.toNat < b.toNat
          · have : ¬ b.toNat < a.toNat := by omega
            simp [hab, this]
          · by_cases hba : b.toNat < a.toNat
            · simp [hab, hba] at h
            · simp [hab, hba] at h ⊢
              exact ih bs h

theorem localeCompare_self (s : String) : localeCompare s s = 0 := by
  simp [localeCompare, strLt_irrefl]

theorem localeCompare_antisym (s t : String) : localeCompare s t = -localeCompare t s := by
  unfold localeCompare
  by_cases h1 : strLt s.data t.data = true
  · simp [h1, strLt_asymm _ _ h1]
  · by_cases h2 : strLt t.data s.data = true
    · simp [h1, h2]
    · simp [h1, h2]

theorem jsEq_iff (a b : Value) : jsEq a b = true ↔ a = b := by
  cases a <;> cases b <;> simp [jsEq]

theorem jsEq_refl (a : Value) : jsEq a a = true := (jsEq_iff a a).mpr rfl

theorem jsEq_symm (a b : Value) : jsEq a b = jsEq b a := by
  by_cases h : jsEq a b = true
  · rw [h, Eq.symm ((jsEq_iff b a).mpr ((jsEq_iff a b).mp h).symm)]
  · have h' : ¬ jsEq b a = true := fun hba => h ((jsEq_iff a b).mpr ((jsEq_iff b a).mp hba).symm)
    rw [Bool.not_eq_true] at h h'
    rw [h, h']

theorem applyDirection_zero (dir : Direction) : applyDirection dir 0 = 0 := by
  cases dir <;> simp [applyDirection]

theorem applyDirection_neg (dir : Direction) (x : Int) :
    applyDirection dir (-x) = -applyDirection dir x := by
  cases dir <;> simp [applyDirection]

theorem baseComparison_antisym (a b : Value) : baseComparison a b = -baseComparison b a := by
  cases a <;> cases b <;>
    simp only [baseComparison] <;>
    first
      | omega
      | apply localeCompare_antisym

theorem baseComparison_self (a : Value) : baseComparison a a = 0 := by
  cases a <;> simp [baseComparison, localeCompare_self]

theorem compareValues_of_jsEq (dir : Direction) (a b : Value) (h : jsEq a b = true) :
    compareValues dir a b = 0 := by
  simp [compareValues, h]

theorem compareValues_self (dir : Direction) (a : Value) : compareValues dir a a = 0 :=
  compareValues_of_jsEq dir a a (jsEq_refl a)

theorem jsEq_eq_false_of_nullish_mixed (a b : Value)
    (hab : isNullish a ≠ isNullish b) : jsEq a b = false := by
  rw [← Bool.not_eq_true, jsEq_iff]
  intro h
  exact hab (by rw [h])

theorem compareValues_nullish_left (dir : Direction) (a b : Value)
    (ha : isNullish a = true) (hb : isNullish b = false) : compareValues dir a b = 1 := by
  have hne : jsEq a b = false := jsEq_eq_false_of_nullish_mixed a b (by rw [ha, hb]; simp)
  simp [compareValues, hne, ha]

theorem compareValues_nullish_right (dir : Direction) (a b : Value)
    (ha : isNullish a = false) (hb : isNullish b = true) : compareValues dir a b = -1 := by
  have hne : jsEq a b = false := jsEq_eq_false_of_nullish_mixed a b (by rw [ha, hb]; simp)
  simp [compareValues, hne, ha, hb]

theorem compareValues_defined (dir : Direction) (a b : Value)
    (ha : isNullish a = false) (hb : isNullish b = false) (hne : jsEq a b = false) :
    compareValues dir a b = applyDirection dir (baseComparison a b) := by
  simp [compareValues, hne, ha, hb]

theorem compareValues_antisym (dir : Direction) (a b : Value)
    (h : isNullish a = false ∨ isNullish b = false) :
    compareValues dir a b = -compareValues dir b a := by
  by_cases heq : jsEq a b = true
  · have : a = b := (jsEq_iff a b).mp heq
    subst this
    simp [compareValues_self]
  · have heq' : jsEq a b = false := by rwa [Bool.not_eq_true] at heq
    have hba : jsEq b a = false := by rw [← jsEq_symm]; exact heq'
    cases ha : isNullish a
    · cases hb : isNullish b
      · rw [compareValues_defined dir a b ha hb heq', compareValues_defined dir b a hb ha hba,
          baseComparison_antisym a b, applyDirection_neg]
      · rw [compareValues_nullish_right dir a b ha hb, compareValues_nullish_left dir b a hb ha]
    · cases hb : isNullish b
      · rw [compareValues_nullish_left dir a b ha hb, compareValues_nullish_right dir b a hb ha]
        decide
      · rcases h with h | h
        · rw [ha] at h; exact absurd h (by simp)
        · rw [hb] at h; exact absurd h (by simp)

theorem compareValues_ne_zero_symm (dir : Direction) (a b : Value)
    (h : compareValues dir a b ≠ 0) : compareValues dir b a ≠ 0 := by
  by_cases ha : isNullish a = false
  · rw [compareValues_antisym dir a b (Or.inl ha)] at h
    omega
  · by_cases hb : isNullish b = false
    · rw [compareValues_antisym dir a b (Or.inr hb)] at h
      omega
    · have ha' : isNullish a = true := by revert ha; cases isNullish a <;> simp
      have hb' : isNullish b = true := by revert hb; cases isNullish b <;> simp
      by_cases heq : jsEq b a = true
      · exact absurd (compareValues_of_jsEq dir a b
          (by rw [jsEq_symm]; exact heq)) h
      · have heq' : jsEq b a = false := by rwa [Bool.not_eq_true] at heq
        simp [compareValues, heq', ha', hb']

theorem compareValues_lt_asymm (dir : Direction) (a b : Value)
    (hab : compareValues dir a b < 0) : ¬ compareValues dir b a < 0 := by
  intro hba
  by_cases ha : isNullish a = false
  · rw [compareValues_antisym dir a b (Or.inl ha)] at hab
    omega
  · have ha' : isNullish a = true := by revert ha; cases isNullish a <;> simp
    by_cases heq : jsEq a b = true
    · rw [compareValues_of_jsEq dir a b heq] at hab
      omega
    · have heq' : jsEq a b = false := by rwa [Bool.not_eq_true] at heq
      have : compareValues dir a b = 1 ∨ compareValues dir a b = 0 := by
        cases hb : isNullish b
        · exact Or.inl (compareValues_nullish_left dir a b ha' hb)
        · simp [compareValues, heq', ha']
      omega

theorem baseComparison_otherwise (a b : Value)
    (hs : (isStr a && isStr b) = false) (hn : (isNum a && isNum b) = false) :
    baseComparison a b = localeCompare (jsToString a) (jsToString b) := by
  cases a <;> cases b <;> simp_all [isStr, isNum, baseComparison]

/-! ### Claim theorems -/

/-- Claim C1: in the sort comparator a `null`/`undefined` value compares
after any defined value in both directions (the descending negation is
applied only to the comparison of two defined values, never to the
null-presence result), and two defined values are compared with
`localeCompare` when both are strings, with subtraction when both are
numbers, and with string-coerced `localeCompare` otherwise, negated when
the direction is descending. -/
theorem c1_comparator_nulls_last_and_dispatch (dir : Direction) (a b : Value) :
    (isNullish a = true → isNullish b = false → compareValues dir a b = 1) ∧
    (isNullish a = false → isNullish b = true → compareValues dir a b = -1) ∧
    (∀ s t, a = .vStr s → b = .vStr t →
      compareValues dir a b = applyDirection dir (localeCompare s t)) ∧
    (∀ m n, a = .vNum m → b = .vNum n →
      compareValues dir a b = applyDirection dir (m - n)) ∧
    (isNullish a = false → isNullish b = false → (isStr a && isStr b) = false →
      (isNum a && isNum b) = false →
      compareValues dir a b = applyDirection dir (localeCompare (jsToString a) (jsToString b))) := by
  refine ⟨compareValues_nullish_left dir a b, compareValues_nullish_right dir a b, ?_, ?_, ?_⟩
  · rintro s t rfl rfl
    by_cases heq : jsEq (Value.vStr s) (Value.vStr t) = true
    · have hst : s = t := by simpa [jsEq_iff] using heq
      subst hst
      rw [compareValues_of_jsEq dir _ _ heq, localeCompare_self, applyDirection_zero]
    · have heq' : jsEq (Value.vStr s) (Value.vStr t) = false := by
        rwa [Bool.not_eq_true] at heq
      rw [compareValues_defined dir _ _ (by rfl) (by rfl) heq']
      rfl
  · rintro m n rfl rfl
    by_cases heq : jsEq (Value.vNum m) (Value.vNum n) = true
    · have hmn : m = n := by simpa [jsEq_iff] using heq
      subst hmn
      rw [compareValues_of_jsEq dir _ _ heq]
      simp [applyDirection_zero]
    · have heq' : jsEq (Value.vNum m) (Value.vNum n) = false := by
        rwa [Bool.not_eq_true] at heq
      rw [compareValues_defined dir _ _ (by rfl) (by rfl) heq']
      rfl
  · intro ha hb hs hn
    by_cases heq : jsEq a b = true
    · have hab : a = b := (jsEq_iff a b).mp heq
      subst hab
      rw [compareValues_of_jsEq dir _ _ heq, localeCompare_self, applyDirection_zero]
    · have heq' : jsEq a b = false := by rwa [Bool.not_eq_true] at heq
      rw [compareValues_defined dir _ _ ha hb heq', baseComparison_otherwise a b hs hn]

theorem c1_witness :
    compareValues .asc .vNull (.vStr "x") = 1 ∧
    compareValues .desc (.vStr "x") .vUndefined = -1 ∧
    compareValues .desc (.vStr "a") (.vStr "b") = applyDirection .desc (localeCompare "a" "b") ∧
    compareValues .desc (.vNum 2) (.vNum 5) = applyDirection .desc (2 - 5) ∧
    compareValues .asc (.vNum 1) (.vStr "b") =
      applyDirection .asc (localeCompare (jsToString (.vNum 1)) (jsToString (.vStr "b"))) :=
  ⟨(c1_comparator_nulls_last_and_dispatch .asc .vNull (.vStr "x")).1 (by decide) (by decide),
   (c1_comparator_nulls_last_and_dispatch .desc (.vStr "x") .vUndefined).2.1 (by decide) (by decide),
   (c1_comparator_nulls_last_and_dispatch .desc (.vStr "a") (.vStr "b")).2.2.1 "a" "b" rfl rfl,
   (c1_comparator_nulls_last_and_dispatch .desc (.vNum 2) (.vNum 5)).2.2.2.1 2 5 rfl rfl,
   (c1_comparator_nulls_last_and_dispatch .asc (.vNum 1) (.vStr "b")).2.2.2.2
     (by decide) (by decide) (by decide) (by decide)⟩

/-- Claim C6: a header click on a sortable column cycles that column's sort
state `none → ascending → descending → none`, a click on a sortable column
other than the currently sorted one resets to ascending for the new key,
and a click on a non-sortable column leaves the sort state unchanged. -/
theorem c6_header_click_cycle (column : Column) (prev : Option SortState) :
    (column.sortable = false → handleSort column prev = prev) ∧
    (column.sortable = true → prev = none →
      handleSort column prev = some ⟨column.key, .asc⟩) ∧
    (column.sortable = true → ∀ p, prev = some p → p.key ≠ column.key →
      handleSort column prev = some ⟨column.key, .asc⟩) ∧
    (column.sortable = true → ∀ p, prev = some p → p.key = column.key → p.direction = .asc →
      handleSort column prev = some ⟨column.key, .desc⟩) ∧
    (column.sortable = true → ∀ p, prev = some p → p.key = column.key → p.direction = .desc →
      handleSort column prev = none) := by
  refine ⟨?_, ?_, ?_, ?_, ?_⟩
  · intro h
    simp [handleSort, h]
  · rintro h rfl
    simp [handleSort, h]
  · rintro h p rfl hk
    simp [handleSort, h, hk]
  · rintro h p rfl hk hd
    simp [handleSort, h, hk, hd]
  · rintro h p rfl hk hd
    simp [handleSort, h, hk, hd]

theorem c6_witness :
    handleSort ⟨"a", "A", "a", false⟩ (some ⟨"b", .asc⟩) = some ⟨"b", .asc⟩ ∧
    handleSort ⟨"a", "A", "a", true⟩ none = some ⟨"a", .asc⟩ ∧
    handleSort ⟨"a", "A", "a", true⟩ (some ⟨"b", .asc⟩) = some ⟨"a", .asc⟩ ∧
    handleSort ⟨"a", "A", "a", true⟩ (some ⟨"a", .asc⟩) = some ⟨"a", .desc⟩ ∧
    handleSort ⟨"a", "A", "a", true⟩ (some ⟨"a", .desc⟩) = none :=
  ⟨(c6_header_click_cycle ⟨"a", "A", "a", false⟩ (some ⟨"b", .asc⟩)).1 rfl,
   (c6_header_click_cycle ⟨"a", "A", "a", true⟩ none).2.1 rfl rfl,
   (c6_header_click_cycle ⟨"a", "A", "a", true⟩ (some ⟨"b", .asc⟩)).2.2.1 rfl
     ⟨"b", .asc⟩ rfl (by decide),
   (c6_header_click_cycle ⟨"a", "A", "a", true⟩ (some ⟨"a", .asc⟩)).2.2.2.1 rfl
     ⟨"a", .asc⟩ rfl rfl rfl,
   (c6_header_click_cycle ⟨"a", "A", "a", true⟩ (some ⟨"a", .desc⟩)).2.2.2.2 rfl
     ⟨"a", .desc⟩ rfl rfl rfl⟩

/-- Claim C7: with no sort state the sorted view is the input collection in
unchanged order; sorting produces a rearrangement of the caller's
collection (a fresh copy is sorted, the input value itself being immutable
in the embedding), and a sort-state change touches neither the selection
set nor the select-all flag. -/
theorem c7_sort_frame (data : List Row) (st : SortState) (column : Column) (ts : TState) :
    sortedData none data = data ∧
    (sortedData (some st) data).Perm data ∧
    (clickHeader column ts).selectedRows = ts.selectedRows ∧
    (clickHeader column ts).selectAll = ts.selectAll :=
  ⟨rfl, List.perm_insertionSort _ _, rfl, rfl⟩

/-- Claim C10: the comparator is inconsistent on mixed missing values: a
record whose sort-key value is `null` and a record whose sort-key value is
`undefined` each compare as sorting after the other (result `1` both ways),
so the comparator is not antisymmetric; `===`-identical values (including
`null` with `null`) compare as `0`. -/
theorem c10_comparator_inconsistency (dir : Direction) :
    compareValues dir .vNull .vUndefined = 1 ∧
    compareValues dir .vUndefined .vNull = 1 ∧
    rowCompare ⟨"k", dir⟩ [("k", .vNull)] [] = 1 ∧
    rowCompare ⟨"k", dir⟩ [] [("k", .vNull)] = 1 ∧
    ¬ (∀ a b : Value, 0 < compareValues dir a b → compareValues dir b a < 0) ∧
    (∀ a b : Value, jsEq a b = true → compareValues dir a b = 0) ∧
    compareValues dir .vNull .vNull = 0 := by
  refine ⟨?_, ?_, ?_, ?_, ?_, ?_, ?_⟩
  · cases dir <;> decide
  · cases dir <;> decide
  · cases dir <;> decide
  · cases dir <;> decide
  · intro h
    have h1 : compareValues dir .vNull .vUndefined = 1 := by cases dir <;> decide
    have h2 : compareValues dir .vUndefined .vNull = 1 := by cases dir <;> decide
    have := h .vNull .vUndefined (by omega)
    omega
  · exact fun a b h => compareValues_of_jsEq dir a b h
  · cases dir <;> decide

theorem c10_witness :
    compareValues .asc (.vStr "a") (.vStr "a") = 0 ∧
    compareValues .desc (.vNum 3) (.vNum 3) = 0 :=
  ⟨(c10_comparator_inconsistency .asc).2.2.2.2.2.1 (.vStr "a") (.vStr "a") (by decide),
   (c10_comparator_inconsistency .desc).2.2.2.2.2.1 (.vNum 3) (.vNum 3) (by decide)⟩

/-! ### Selection resolution lemmas -/

theorem selectedData_sublist (rowKey : RowKeySpec) (sel : Finset String) (view : List Row) :
    (selectedData rowKey sel view).Sublist view := by
  have h := (List.filter_sublist
    (p := fun p : Nat × Row => decide (getRowKey rowKey p.2 p.1 ∈ sel)) view.enum).map Prod.snd
  rwa [List.enum_map_snd] at h

theorem mem_selectedData (rowKey : RowKeySpec) (sel : Finset String) (view : List Row)
    (x : Row) :
    x ∈ selectedData rowKey sel view ↔
      ∃ i : Fin view.length, view.get i = x ∧ getRowKey rowKey x (i : Nat) ∈ sel := by
  simp only [selectedData, List.mem_map, List.mem_filter, decide_eq_true_eq]
  constructor
  · rintro ⟨⟨i, a⟩, ⟨hmem, hsel⟩, rfl⟩
    rw [List.mem_enum_iff_getElem?] at hmem
    rcases List.getElem?_eq_some.mp hmem with ⟨hi, hget⟩
    exact ⟨⟨i, hi⟩, by simpa [List.get_eq_getElem] using hget, hsel⟩
  · rintro ⟨⟨i, hi⟩, hget, hsel⟩
    refine ⟨(i, x), ⟨?_, hsel⟩, rfl⟩
    rw [List.mem_enum_iff_getElem?]
    exact List.getElem?_eq_some.mpr ⟨hi, by simpa [List.get_eq_getElem] using hget⟩

/-- Claim C4: `toggleAll(true)` makes the selection set exactly the row
identities of the current sorted view and hands the entire sorted view to
the callback; `toggleAll(false)` empties the set and hands the callback an
empty sequence; in particular `toggleAll(true)` followed by
`toggleAll(false)` returns the selection set to empty. -/
theorem c4_toggle_all (props : Props) (st : TState) :
    (∀ key, key ∈ (handleSelectAll props st true).state.selectedRows ↔
      key ∈ keysWithIndex props.rowKey 0 (viewOf props st)) ∧
    (handleSelectAll props st true).state.selectAll = true ∧
    (handleSelectAll props st true).callbackArg = viewOf props st ∧
    (handleSelectAll props st false).state.selectedRows = ∅ ∧
    (handleSelectAll props st false).state.selectAll = false ∧
    (handleSelectAll props st false).callbackArg = [] ∧
    (handleSelectAll props ((handleSelectAll props st true).state) false).state.selectedRows
      = ∅ := by
  refine ⟨fun key => ?_, rfl, rfl, rfl, rfl, rfl, rfl⟩
  simp [handleSelectAll, List.mem_toFinset]

/-- Claim C5: `toggleRow(key, true)` yields `S ∪ {key}` and
`toggleRow(key, false)` yields `S \ {key}` for any key (an identity outside
the current view is accepted silently); the select-all flag is then set iff
the new set's size equals the sorted view's length; and the callback
argument is exactly the records of the current sorted view whose identity
lies in the new set, in sorted-view order (a sublist of the view). -/
theorem c5_toggle_row (props : Props) (st : TState) (key : String) :
    (∀ x, x ∈ (handleRowSelect props st key true).state.selectedRows ↔
        x = key ∨ x ∈ st.selectedRows) ∧
    (∀ x, x ∈ (handleRowSelect props st key false).state.selectedRows ↔
        x ∈ st.selectedRows ∧ x ≠ key) ∧
    (∀ checked, ((handleRowSelect props st key checked).state.selectAll = true ↔
        (handleRowSelect props st key checked).state.selectedRows.card
          = (viewOf props st).length)) ∧
    (∀ checked, ((handleRowSelect props st key checked).callbackArg).Sublist
        (viewOf props st)) ∧
    (∀ checked x, x ∈ (handleRowSelect props st key checked).callbackArg ↔
        ∃ i : Fin (viewOf props st).length, (viewOf props st).get i = x ∧
          getRowKey props.rowKey x (i : Nat)
            ∈ (handleRowSelect props st key checked).state.selectedRows) := by
  refine ⟨fun x => ?_, fun x => ?_, fun checked => ?_, fun checked => ?_, fun checked x => ?_⟩
  · simp [handleRowSelect, Finset.mem_insert]
  · simp [handleRowSelect, Finset.mem_erase, and_comm]
  · simp [handleRowSelect]
  · exact selectedData_sublist _ _ _
  · exact mem_selectedData _ _ _ x

/-- Claim C9: replacing the input record collection never changes the
selection set: any state reached under some props is the component's state
under any replacement props; concretely, selecting identity "1" while it is
in view and then supplying a collection lacking "1" leaves "1" selected,
and only the explicit `toggleAll(false)` empties the set. -/
theorem c9_selection_survives_data_replacement :
    (∀ props props' st, Reachable props st → Reachable props' st) ∧
    "1" ∈ keysWithIndex (RowKeySpec.field "id") 0
        (viewOf ⟨[[("id", Value.vNum 1)]], .field "id"⟩ initState) ∧
    (handleRowSelect ⟨[[("id", Value.vNum 1)]], .field "id"⟩ initState "1" true).state.selectedRows
      = {"1"} ∧
    "1" ∉ viewKeys ⟨[[("id", Value.vNum 2)]], .field "id"⟩
        (handleRowSelect ⟨[[("id", Value.vNum 1)]], .field "id"⟩ initState "1" true).state ∧
    (handleSelectAll ⟨[[("id", Value.vNum 2)]], .field "id"⟩
        (handleRowSelect ⟨[[("id", Value.vNum 1)]], .field "id"⟩ initState "1" true).state
        false).state.selectedRows = ∅ :=
  ⟨fun p p' st h => Reachable.newProps p p' st h, by decide, by decide, by decide, by decide⟩

theorem c9_witness : Reachable ⟨[], RowKeySpec.auto⟩ initState :=
  c9_selection_survives_data_replacement.1 ⟨[[("id", Value.vNum 1)]], .field "id"⟩
    ⟨[], RowKeySpec.auto⟩ initState (Reachable.init _)

/-! ### Pagination -/

theorem totalPages_mul_bounds (p : Pagination) (hps : 0 < p.pageSize) :
    p.total ≤ totalPages p * p.pageSize ∧ totalPages p * p.pageSize < p.total + p.pageSize := by
  have hdm := Nat.div_add_mod (p.total + p.pageSize - 1) p.pageSize
  have hr : (p.total + p.pageSize - 1) % p.pageSize < p.pageSize := Nat.mod_lt _ hps
  have hq : totalPages p * p.pageSize
      = p.pageSize * ((p.total + p.pageSize - 1) / p.pageSize) := by
    unfold totalPages
    ring
  rw [hq]
  omega

/-- Claim C2: for a pagination descriptor with `currentPage ≥ 1`,
`pageSize > 0` and `totalCount ≥ 0`, the component displays
`firstShownIndex = (currentPage-1)*pageSize + 1`,
`lastShownIndex = min(currentPage*pageSize, totalCount)` and
`totalPages = ceil(totalCount / pageSize)`; the Previous button is disabled
iff `currentPage = 1` and the Next button iff `currentPage ≥ totalPages`;
for `totalCount=5, pageSize=2, currentPage=3` it shows `firstShownIndex=5`,
`lastShownIndex=5`, `totalPages=3` and Next is disabled. -/
theorem c2_pagination (p : Pagination) (hcur : 1 ≤ p.current) (hps : 0 < p.pageSize) :
    firstShownIndex p = (p.current - 1) * p.pageSize + 1 ∧
    lastShownIndex p = min (p.current * p.pageSize) p.total ∧
    ⌈(p.total : ℚ) / (p.pageSize : ℚ)⌉ = (totalPages p : ℤ) ∧
    (prevDisabled p = true ↔ p.current = 1) ∧
    (nextDisabled p = true ↔ totalPages p ≤ p.current) ∧
    (firstShownIndex ⟨3, 2, 5⟩ = 5 ∧ lastShownIndex ⟨3, 2, 5⟩ = 5 ∧
      totalPages ⟨3, 2, 5⟩ = 3 ∧ nextDisabled ⟨3, 2, 5⟩ = true ∧
      prevDisabled ⟨3, 2, 5⟩ = false) := by
  obtain ⟨h1, h2⟩ := totalPages_mul_bounds p hps
  refine ⟨rfl, rfl, ?_, ?_, ?_, by decide, by decide, by decide, by decide, by decide⟩
  · have hb : (0 : ℚ) < (p.pageSize : ℚ) := by exact_mod_cast hps
    rw [Int.ceil_eq_iff]
    constructor
    · rw [lt_div_iff₀ hb]
      have hcast : ((totalPages p * p.pageSize : ℕ) : ℚ) < ((p.total + p.pageSize : ℕ) : ℚ) := by
        exact_mod_cast h2
      push_cast at hcast ⊢
      linarith
    · rw [div_le_iff₀ hb]
      have hcast : ((p.total : ℕ) : ℚ) ≤ ((totalPages p * p.pageSize : ℕ) : ℚ) := by
        exact_mod_cast h1
      push_cast at hcast ⊢
      linarith
  · simp [prevDisabled]
  · simp [nextDisabled]

theorem c2_witness :
    (⌈(((⟨3, 2, 5⟩ : Pagination).total : ℚ)) / (((⟨3, 2, 5⟩ : Pagination).pageSize : ℚ))⌉
      = (totalPages ⟨3, 2, 5⟩ : ℤ)) ∧
    (nextDisabled ⟨3, 2, 5⟩ = true ↔ totalPages ⟨3, 2, 5⟩ ≤ (⟨3, 2, 5⟩ : Pagination).current) :=
  ⟨(c2_pagination ⟨3, 2, 5⟩ (by decide) (by decide)).2.2.1,
   (c2_pagination ⟨3, 2, 5⟩ (by decide) (by decide)).2.2.2.2.1⟩

/-! ### Sorting with the comparator: nulls stay last -/

/-- Test that a row's sort-key value is defined (not `null`/`undefined`). -/
def definedRow (k : String) (r : Row) : Bool :=
  !(isNullish (getField r k))

theorem definedRow_eq_true (k : String) (r : Row) :
    definedRow k r = true ↔ isNullish (getField r k) = false := by
  simp [definedRow]

theorem definedRow_eq_false (k : String) (r : Row) :
    definedRow k r = false ↔ isNullish (getField r k) = true := by
  simp [definedRow]

theorem rowCompare_self (st : SortState) (a : Row) : rowCompare st a a = 0 :=
  compareValues_self st.direction _

theorem rowLe_of_defined_nullish (st : SortState) (a b : Row)
    (ha : definedRow st.key a = true) (hb : definedRow st.key b = false) : rowLe st a b := by
  have ha' : isNullish (getField a st.key) = false := (definedRow_eq_true _ _).mp ha
  have hb' : isNullish (getField b st.key) = true := (definedRow_eq_false _ _).mp hb
  show rowCompare st a b ≤ 0
  unfold rowCompare
  rw [compareValues_nullish_right st.direction _ _ ha' hb']
  omega

theorem not_rowLe_of_nullish_defined (st : SortState) (a b : Row)
    (ha : definedRow st.key a = false) (hb : definedRow st.key b = true) : ¬ rowLe st a b := by
  have ha' : isNullish (getField a st.key) = true := (definedRow_eq_false _ _).mp ha
  have hb' : isNullish (getField b st.key) = false := (definedRow_eq_true _ _).mp hb
  show ¬ rowCompare st a b ≤ 0
  unfold rowCompare
  rw [compareValues_nullish_left st.direction _ _ ha' hb']
  omega

theorem pairwise_nullsLast_orderedInsert (st : SortState) (x : Row) (m : List Row)
    (hm : m.Pairwise (fun a b => definedRow st.key a = false → definedRow st.key b = false)) :
    (m.orderedInsert (rowLe st) x).Pairwise
      (fun a b => definedRow st.key a = false → definedRow st.key b = false) := by
  induction m with
  | nil => exact List.pairwise_singleton _ x
  | cons b m' ih =>
      by_cases hxb : rowLe st x b
      · simp only [List.orderedInsert, if_pos hxb]
        rw [List.pairwise_cons]
        refine ⟨?_, hm⟩
        intro y hy hx
        have hb : definedRow st.key b = false := by
          by_contra hb'
          have hb'' : definedRow st.key b = true := by
            revert hb'; cases definedRow st.key b <;> simp
          exact not_rowLe_of_nullish_defined st x b hx hb'' hxb
        rcases List.mem_cons.mp hy with rfl | hy'
        · exact hb
        · exact (List.rel_of_pairwise_cons hm hy') hb
      · simp only [List.orderedInsert, if_neg hxb]
        rw [List.pairwise_cons] at hm ⊢
        refine ⟨?_, ih hm.2⟩
        intro y hy hb
        rcases (List.mem_orderedInsert _).mp hy with rfl | hy'
        · by_contra hx'
          have hx'' : definedRow st.key y = true := by
            revert hx'; cases definedRow st.key y <;> simp
          exact hxb (rowLe_of_defined_nullish st y b hx'' hb)
        · exact hm.1 y hy' hb

theorem pairwise_nullsLast_insertionSort (st : SortState) (l : List Row) :
    (List.insertionSort (rowLe st) l).Pairwise
      (fun a b => definedRow st.key a = false → definedRow st.key b = false) := by
  induction l with
  | nil => exact List.Pairwise.nil
  | cons x t ih =>
      simp only [List.insertionSort]
      exact pairwise_nullsLast_orderedInsert st x _ ih

theorem filter_definedRow_orderedInsert (st : SortState) (x : Row) (m : List Row)
    (hm : m.Pairwise (fun a b => definedRow st.key a = false → definedRow st.key b = false)) :
    (m.orderedInsert (rowLe st) x).filter (definedRow st.key)
      = if definedRow st.key x = true
          then (m.filter (definedRow st.key)).orderedInsert (rowLe st) x
          else m.filter (definedRow st.key) := by
  induction m with
  | nil =>
      by_cases hx : definedRow st.key x = true <;>
        simp [List.orderedInsert, List.filter_cons, hx]
  | cons b m' ih =>
      rw [List.pairwise_cons] at hm
      by_cases hxb : rowLe st x b
      · simp only [List.orderedInsert, if_pos hxb]
        by_cases hx : definedRow st.key x = true
        · rw [if_pos hx, List.filter_cons_of_pos hx]
          by_cases hb : definedRow st.key b = true
          · rw [List.filter_cons_of_pos hb]
            simp only [List.orderedInsert, if_pos hxb]
          · have hb' : definedRow st.key b = false := by
              revert hb; cases definedRow st.key b <;> simp
            have hfil : (b :: m').filter (definedRow st.key) = [] := by
              rw [List.filter_eq_nil_iff]
              intro a ha
              rcases List.mem_cons.mp ha with rfl | ha'
              · simp [hb']
              · simp [hm.1 a ha' hb']
            rw [hfil]
            simp [List.orderedInsert]
        · rw [if_neg hx, List.filter_cons_of_neg (by simpa using hx)]
      · simp only [List.orderedInsert, if_neg hxb]
        have ihm := ih hm.2
        by_cases hb : definedRow st.key b = true
        · rw [List.filter_cons_of_pos hb, ihm]
          by_cases hx : definedRow st.key x = true
          · rw [if_pos hx, if_pos hx, List.filter_cons_of_pos hb]
            simp only [List.orderedInsert, if_neg hxb]
          · rw [if_neg hx, if_neg hx, List.filter_cons_of_pos hb]
        · have hb' : definedRow st.key b = false := by
            revert hb; cases definedRow st.key b <;> simp
          rw [List.filter_cons_of_neg (by simpa using hb'), ihm]
          by_cases hx : definedRow st.key x = true
          · exact absurd (rowLe_of_defined_nullish st x b hx hb') hxb
          · rw [if_neg hx, if_neg hx, List.filter_cons_of_neg (by simpa using hb')]

theorem filter_definedRow_insertionSort (st : SortState) (l : List Row) :
    (List.insertionSort (rowLe st) l).filter (definedRow st.key)
      = List.insertionSort (rowLe st) (l.filter (definedRow st.key)) := by
  induction l with
  | nil => rfl
  | cons x t ih =>
      simp only [List.insertionSort]
      rw [filter_definedRow_orderedInsert st x _ (pairwise_nullsLast_insertionSort st t)]
      rw [List.filter_cons]
      by_cases hx : definedRow st.key x = true
      · rw [if_pos hx, if_pos hx]
        simp only [List.insertionSort]
        rw [ih]
      · rw [if_neg hx, if_neg (by simpa using hx)]
        exact ih

theorem eq_filter_append_filter (k : String) (l : List Row)
    (h : l.Pairwise (fun a b => definedRow k a = false → definedRow k b = false)) :
    l = l.filter (definedRow k) ++ l.filter (fun r => isNullish (getField r k)) := by
  induction l with
  | nil => rfl
  | cons x t ih =>
      rw [List.pairwise_cons] at h
      by_cases hx : definedRow k x = true
      · have hx' : isNullish (getField x k) = false := (definedRow_eq_true _ _).mp hx
        rw [List.filter_cons_of_pos hx, List.filter_cons_of_neg (by simp [hx']),
          List.cons_append]
        exact congrArg (List.cons x) (ih h.2)
      · have hx0 : definedRow k x = false := by
          revert hx; cases definedRow k x <;> simp
        have hallnull : ∀ y ∈ t, definedRow k y = false := fun y hy => h.1 y hy hx0
        have h1 : (x :: t).filter (definedRow k) = [] := by
          rw [List.filter_eq_nil_iff]
          intro a ha
          rcases List.mem_cons.mp ha with rfl | ha'
          · simp [hx0]
          · simp [hallnull a ha']
        have h2 : (x :: t).filter (fun r => isNullish (getField r k)) = x :: t := by
          rw [List.filter_eq_self]
          intro a ha
          rcases List.mem_cons.mp ha with rfl | ha'
          · simpa using (definedRow_eq_false _ _).mp hx0
          · simpa using (definedRow_eq_false _ _).mp (hallnull a ha')
        rw [h1, h2, List.nil_append]

/-! ### Strict sortedness on tie-free, transitively compared collections -/

theorem pairwise_lt_orderedInsert (st : SortState) (S : List Row)
    (hd : ∀ a ∈ S, definedRow st.key a = true)
    (hne : ∀ a ∈ S, ∀ b ∈ S, a = b ∨ rowCompare st a b ≠ 0)
    (htr : ∀ a ∈ S, ∀ b ∈ S, ∀ c ∈ S,
      rowCompare st a b < 0 → rowCompare st b c < 0 → rowCompare st a c < 0)
    (x : Row) (hx : x ∈ S) (m : List Row) (hmS : ∀ y ∈ m, y ∈ S) (hxm : x ∉ m)
    (hm : m.Pairwise (fun a b => rowCompare st a b < 0)) :
    (m.orderedInsert (rowLe st) x).Pairwise (fun a b => rowCompare st a b < 0) := by
  induction m with
  | nil => exact List.pairwise_singleton _ x
  | cons b m' ih =>
      rw [List.pairwise_cons] at hm
      have hbS : b ∈ S := hmS b (List.mem_cons_self b m')
      by_cases hxb : rowLe st x b
      · simp only [List.orderedInsert, if_pos hxb]
        have hxblt : rowCompare st x b < 0 := by
          have hle : rowCompare st x b ≤ 0 := hxb
          have hne' := hne x hx b hbS
          have hxnb : x ≠ b := fun e => hxm (e ▸ List.mem_cons_self b m')
          rcases hne' with e | hc
          · exact absurd e hxnb
          · omega
        rw [List.pairwise_cons]
        constructor
        · intro y hy
          rcases List.mem_cons.mp hy with rfl | hy'
          · exact hxblt
          · exact htr x hx b hbS y (hmS y (List.mem_cons_of_mem _ hy')) hxblt (hm.1 y hy')
        · exact List.pairwise_cons.mpr hm
      · simp only [List.orderedInsert, if_neg hxb]
        rw [List.pairwise_cons]
        constructor
        · intro y hy
          rcases (List.mem_orderedInsert _).mp hy with he | hy'
          · subst he
            have h1 : 0 < rowCompare st y b := by
              have : ¬ rowCompare st y b ≤ 0 := hxb
              omega
            have ha' : isNullish (getField y st.key) = false :=
              (definedRow_eq_true _ _).mp (hd y hx)
            have h2 : rowCompare st y b = -(rowCompare st b y) := by
              unfold rowCompare
              exact compareValues_antisym _ _ _ (Or.inl ha')
            omega
          · exact hm.1 y hy'
        · exact ih (fun y hy => hmS y (List.mem_cons_of_mem _ hy))
            (fun h => hxm (List.mem_cons_of_mem _ h)) hm.2

theorem pairwise_lt_insertionSort (st : SortState) (S l : List Row)
    (hd : ∀ a ∈ S, definedRow st.key a = true)
    (hne : ∀ a ∈ S, ∀ b ∈ S, a = b ∨ rowCompare st a b ≠ 0)
    (htr : ∀ a ∈ S, ∀ b ∈ S, ∀ c ∈ S,
      rowCompare st a b < 0 → rowCompare st b c < 0 → rowCompare st a c < 0)
    (hlS : ∀ y ∈ l, y ∈ S) (hnd : l.Nodup) :
    (List.insertionSort (rowLe st) l).Pairwise (fun a b => rowCompare st a b < 0) := by
  induction l with
  | nil => exact List.Pairwise.nil
  | cons x t ih =>
      simp only [List.insertionSort]
      exact pairwise_lt_orderedInsert st S hd hne htr x (hlS x (List.mem_cons_self x t)) _
        (fun y hy => hlS y (List.mem_cons_of_mem _ ((List.mem_insertionSort _).mp hy)))
        (fun hmem => (List.nodup_cons.mp hnd).1 ((List.mem_insertionSort _).mp hmem))
        (ih (fun y hy => hlS y (List.mem_cons_of_mem _ hy)) (List.nodup_cons.mp hnd).2)

theorem rowCompare_desc_defined (k : String) (a b : Row)
    (ha : definedRow k a = true) (hb : definedRow k b = true) :
    rowCompare ⟨k, .desc⟩ a b = rowCompare ⟨k, .asc⟩ b a := by
  have ha' : isNullish (getField a k) = false := (definedRow_eq_true _ _).mp ha
  have hb' : isNullish (getField b k) = false := (definedRow_eq_true _ _).mp hb
  show compareValues .desc (getField a k) (getField b k)
    = compareValues .asc (getField b k) (getField a k)
  by_cases heq : jsEq (getField a k) (getField b k) = true
  · rw [compareValues_of_jsEq _ _ _ heq,
      compareValues_of_jsEq _ _ _ (by rw [jsEq_symm]; exact heq)]
  · have heq' : jsEq (getField a k) (getField b k) = false := by
      rwa [Bool.not_eq_true] at heq
    have hvu : jsEq (getField b k) (getField a k) = false := by
      rw [← jsEq_symm]; exact heq'
    rw [compareValues_defined _ _ _ ha' hb' heq', compareValues_defined _ _ _ hb' ha' hvu,
      baseComparison_antisym (getField a k) (getField b k)]
    simp [applyDirection]

/-- Claim C3 (amended): for a record collection on which the ascending
comparator has no ties among rows with defined sort-key values and is
transitive, sorting ascending and sorting descending by the same key
produce exactly reversed orders on the rows with defined key values, while
rows whose key value is `null`/`undefined` remain at the end of the
sequence in both directions. -/
theorem c3_opposite_directions_reverse (k : String) (data : List Row)
    (h1 : data.Pairwise (fun a b => definedRow k a = true → definedRow k b = true →
      rowCompare ⟨k, .asc⟩ a b ≠ 0))
    (h2 : ∀ a ∈ data, ∀ b ∈ data, ∀ c ∈ data,
      rowCompare ⟨k, .asc⟩ a b < 0 → rowCompare ⟨k, .asc⟩ b c < 0 →
        rowCompare ⟨k, .asc⟩ a c < 0) :
    (sortedData (some ⟨k, .desc⟩) data).filter (definedRow k)
        = ((sortedData (some ⟨k, .asc⟩) data).filter (definedRow k)).reverse ∧
    sortedData (some ⟨k, .asc⟩) data
        = (sortedData (some ⟨k, .asc⟩) data).filter (definedRow k)
          ++ (sortedData (some ⟨k, .asc⟩) data).filter (fun r => isNullish (getField r k)) ∧
    sortedData (some ⟨k, .desc⟩) data
        = (sortedData (some ⟨k, .desc⟩) data).filter (definedRow k)
          ++ (sortedData (some ⟨k, .desc⟩) data).filter (fun r => isNullish (getField r k)) := by
  have hld_sub : ∀ y ∈ data.filter (definedRow k), y ∈ data :=
    fun y hy => (List.mem_filter.mp hy).1
  have hldDef : ∀ y ∈ data.filter (definedRow k), definedRow k y = true :=
    fun y hy => (List.mem_filter.mp hy).2
  have hp : (data.filter (definedRow k)).Pairwise
      (fun a b => rowCompare ⟨k, .asc⟩ a b ≠ 0) := by
    have hfl := List.Pairwise.sublist (@List.filter_sublist Row (definedRow k) data) h1
    exact List.Pairwise.imp_of_mem
      (fun ha hb hr => hr (hldDef _ ha) (hldDef _ hb)) hfl
  have hnd : (data.filter (definedRow k)).Nodup := by
    have : (data.filter (definedRow k)).Pairwise (fun a b : Row => a ≠ b) :=
      List.Pairwise.imp_of_mem
        (fun _ _ hr e => hr (e ▸ rowCompare_self ⟨k, .asc⟩ _)) hp
    exact this
  have hsymm : Symmetric (fun a b : Row => rowCompare ⟨k, .asc⟩ a b ≠ 0) := by
    intro a b h
    unfold rowCompare at h ⊢
    exact compareValues_ne_zero_symm _ _ _ h
  have hne : ∀ a ∈ data.filter (definedRow k), ∀ b ∈ data.filter (definedRow k),
      a = b ∨ rowCompare ⟨k, .asc⟩ a b ≠ 0 := by
    intro a ha b hb
    by_cases e : a = b
    · exact Or.inl e
    · exact Or.inr (hp.forall hsymm ha hb e)
  have htrA : ∀ a ∈ data.filter (definedRow k), ∀ b ∈ data.filter (definedRow k),
      ∀ c ∈ data.filter (definedRow k),
      rowCompare ⟨k, .asc⟩ a b < 0 → rowCompare ⟨k, .asc⟩ b c < 0 →
        rowCompare ⟨k, .asc⟩ a c < 0 :=
    fun a ha b hb c hc => h2 a (hld_sub a ha) b (hld_sub b hb) c (hld_sub c hc)
  have hsA := pairwise_lt_insertionSort ⟨k, .asc⟩ (data.filter (definedRow k))
    (data.filter (definedRow k)) hldDef hne htrA (fun _ hy => hy) hnd
  have hdesc : ∀ a ∈ data.filter (definedRow k), ∀ b ∈ data.filter (definedRow k),
      rowCompare ⟨k, .desc⟩ a b = rowCompare ⟨k, .asc⟩ b a :=
    fun a ha b hb => rowCompare_desc_defined k a b (hldDef a ha) (hldDef b hb)
  have hneD : ∀ a ∈ data.filter (definedRow k), ∀ b ∈ data.filter (definedRow k),
      a = b ∨ rowCompare ⟨k, .desc⟩ a b ≠ 0 := by
    intro a ha b hb
    rcases hne b hb a ha with e | hc
    · exact Or.inl e.symm
    · rw [hdesc a ha b hb]
      exact Or.inr hc
  have htrD : ∀ a ∈ data.filter (definedRow k), ∀ b ∈ data.filter (definedRow k),
      ∀ c ∈ data.filter (definedRow k),
      rowCompare ⟨k, .desc⟩ a b < 0 → rowCompare ⟨k, .desc⟩ b c < 0 →
        rowCompare ⟨k, .desc⟩ a c < 0 := by
    intro a ha b hb c hc hab hbc
    rw [hdesc a ha b hb] at hab
    rw [hdesc b hb c hc] at hbc
    rw [hdesc a ha c hc]
    exact h2 c (hld_sub c hc) b (hld_sub b hb) a (hld_sub a ha) hbc hab
  have hsD := pairwise_lt_insertionSort ⟨k, .desc⟩ (data.filter (definedRow k))
    (data.filter (definedRow k)) hldDef hneD htrD (fun _ hy => hy) hnd
  have hsD' : (List.insertionSort (rowLe ⟨k, .desc⟩) (data.filter (definedRow k))).Pairwise
      (fun a b => rowCompare ⟨k, .asc⟩ b a < 0) := by
    refine List.Pairwise.imp_of_mem (fun ha hb h => ?_) hsD
    rwa [hdesc _ ((List.mem_insertionSort _).mp ha) _ ((List.mem_insertionSort _).mp hb)] at h
  have hrev : ((List.insertionSort (rowLe ⟨k, .desc⟩)
      (data.filter (definedRow k))).reverse).Pairwise
      (fun a b => rowCompare ⟨k, .asc⟩ a b < 0) :=
    List.pairwise_reverse.mpr hsD'
  have hperm : (List.insertionSort (rowLe ⟨k, .asc⟩) (data.filter (definedRow k))).Perm
      ((List.insertionSort (rowLe ⟨k, .desc⟩) (data.filter (definedRow k))).reverse) :=
    (List.perm_insertionSort _ _).trans
      ((List.perm_insertionSort (rowLe ⟨k, .desc⟩) _).symm.trans
        (List.reverse_perm _).symm)
  haveI : IsAntisymm Row (fun a b => rowCompare ⟨k, .asc⟩ a b < 0) := by
    constructor
    intro a b hab hba
    exact absurd hba (by unfold rowCompare at hab ⊢; exact compareValues_lt_asymm _ _ _ hab)
  have hmain : List.insertionSort (rowLe ⟨k, .asc⟩) (data.filter (definedRow k))
      = (List.insertionSort (rowLe ⟨k, .desc⟩) (data.filter (definedRow k))).reverse :=
    List.eq_of_perm_of_sorted hperm hsA hrev
  refine ⟨?_, ?_, ?_⟩
  · show (List.insertionSort (rowLe ⟨k, .desc⟩) data).filter (definedRow k)
      = ((List.insertionSort (rowLe ⟨k, .asc⟩) data).filter (definedRow k)).reverse
    rw [filter_definedRow_insertionSort ⟨k, .desc⟩ data,
      filter_definedRow_insertionSort ⟨k, .asc⟩ data]
    rw [hmain, List.reverse_reverse]
  · exact eq_filter_append_filter k _ (pairwise_nullsLast_insertionSort ⟨k, .asc⟩ data)
  · exact eq_filter_append_filter k _ (pairwise_nullsLast_insertionSort ⟨k, .desc⟩ data)

theorem c3_counterexample :
    ¬ ((sortedData (some ⟨"name", .desc⟩)
          [[("id", Value.vNum 1), ("name", Value.vStr "a")],
           [("id", Value.vNum 2), ("name", Value.vStr "a")]]).filter (definedRow "name")
        = ((sortedData (some ⟨"name", .asc⟩)
          [[("id", Value.vNum 1), ("name", Value.vStr "a")],
           [("id", Value.vNum 2), ("name", Value.vStr "a")]]).filter
            (definedRow "name")).reverse) := by
  decide

theorem c3_witness :
    (sortedData (some ⟨"name", .desc⟩)
        [[("id", Value.vNum 2), ("name", Value.vStr "b")],
         [("id", Value.vNum 1), ("name", Value.vStr "a")],
         [("id", Value.vNum 3), ("name", Value.vNull)]]).filter (definedRow "name")
      = ((sortedData (some ⟨"name", .asc⟩)
        [[("id", Value.vNum 2), ("name", Value.vStr "b")],
         [("id", Value.vNum 1), ("name", Value.vStr "a")],
         [("id", Value.vNum 3), ("name", Value.vNull)]]).filter (definedRow "name")).reverse ∧
    sortedData (some ⟨"name", .asc⟩)
        [[("id", Value.vNum 2), ("name", Value.vStr "b")],
         [("id", Value.vNum 1), ("name", Value.vStr "a")],
         [("id", Value.vNum 3), ("name", Value.vNull)]]
      = (sortedData (some ⟨"name", .asc⟩)
        [[("id", Value.vNum 2), ("name", Value.vStr "b")],
         [("id", Value.vNum 1), ("name", Value.vStr "a")],
         [("id", Value.vNum 3), ("name", Value.vNull)]]).filter (definedRow "name")
        ++ (sortedData (some ⟨"name", .asc⟩)
        [[("id", Value.vNum 2), ("name", Value.vStr "b")],
         [("id", Value.vNum 1), ("name", Value.vStr "a")],
         [("id", Value.vNum 3), ("name", Value.vNull)]]).filter
          (fun r => isNullish (getField r "name")) ∧
    sortedData (some ⟨"name", .desc⟩)
        [[("id", Value.vNum 2), ("name", Value.vStr "b")],
         [("id", Value.vNum 1), ("name", Value.vStr "a")],
         [("id", Value.vNum 3), ("name", Value.vNull)]]
      = (sortedData (some ⟨"name", .desc⟩)
        [[("id", Value.vNum 2), ("name", Value.vStr "b")],
         [("id", Value.vNum 1), ("name", Value.vStr "a")],
         [("id", Value.vNum 3), ("name", Value.vNull)]]).filter (definedRow "name")
        ++ (sortedData (some ⟨"name", .desc⟩)
        [[("id", Value.vNum 2), ("name", Value.vStr "b")],
         [("id", Value.vNum 1), ("name", Value.vStr "a")],
         [("id", Value.vNum 3), ("name", Value.vNull)]]).filter
          (fun r => isNullish (getField r "name")) :=
  c3_opposite_directions_reverse "name"
    [[("id", Value.vNum 2), ("name", Value.vStr "b")],
     [("id", Value.vNum 1), ("name", Value.vStr "a")],
     [("id", Value.vNum 3), ("name", Value.vNull)]]
    (by decide) (by decide)

/-! ### View identities under sort-state changes -/

theorem sortedData_perm (s : Option SortState) (d : List Row) : (sortedData s d).Perm d := by
  cases s with
  | none => exact List.Perm.refl d
  | some st => exact List.perm_insertionSort _ d

theorem keysWithIndex_auto (n : Nat) (l : List Row) :
    keysWithIndex .auto n l = (List.range' n l.length).map toString := by
  induction l generalizing n with
  | nil => rfl
  | cons r rest ih =>
      rw [keysWithIndex, List.length_cons, List.range'_succ, List.map_cons, ih]
      rfl

theorem keysWithIndex_field (f : String) (n : Nat) (l : List Row) :
    keysWithIndex (.field f) n l = l.map (fun r => jsToString (getField r f)) := by
  induction l generalizing n with
  | nil => rfl
  | cons r rest ih =>
      rw [keysWithIndex, List.map_cons, ih]
      rfl

theorem keysWithIndex_fn (g : Row → String) (n : Nat) (l : List Row) :
    keysWithIndex (.fn g) n l = l.map g := by
  induction l generalizing n with
  | nil => rfl
  | cons r rest ih =>
      rw [keysWithIndex, List.map_cons, ih]
      rfl

theorem toFinset_of_perm (l l' : List String) (h : l.Perm l') : l.toFinset = l'.toFinset := by
  ext x
  simp [List.mem_toFinset, h.mem_iff]

theorem keys_toFinset_eq_of_perm (rk : RowKeySpec) (l l' : List Row) (h : l.Perm l') :
    (keysWithIndex rk 0 l).toFinset = (keysWithIndex rk 0 l').toFinset := by
  cases rk with
  | auto => rw [keysWithIndex_auto, keysWithIndex_auto, h.length_eq]
  | field f =>
      rw [keysWithIndex_field, keysWithIndex_field]
      exact toFinset_of_perm _ _ (h.map _)
  | fn g =>
      rw [keysWithIndex_fn, keysWithIndex_fn]
      exact toFinset_of_perm _ _ (h.map _)

theorem viewKeys_eq (props : Props) (st st' : TState) :
    viewKeys props st = viewKeys props st' := by
  unfold viewKeys viewOf
  exact keys_toFinset_eq_of_perm _ _ _
    ((sortedData_perm _ _).trans (sortedData_perm _ _).symm)

/-- Claim C8 (amended): while the caller holds the props fixed, in every
UI-reachable component state the selection set is a subset of the row
identities derivable from the current sorted view; the subset property can
be broken only by replacing the record collection, which leaves stale
identities in the set. -/
theorem c8_selection_subset_of_fixed_props (props : Props) (st : TState)
    (h : ReachableFixed props st) : st.selectedRows ⊆ viewKeys props st := by
  induction h with
  | init =>
      intro x hx
      exact absurd hx (Finset.not_mem_empty x)
  | header st' column hr ih =>
      intro x hx
      rw [viewKeys_eq props (clickHeader column st') st']
      exact ih hx
  | rowToggle st' key checked hk hr ih =>
      intro x hx
      rw [viewKeys_eq props (handleRowSelect props st' key checked).state st']
      cases checked with
      | true =>
          have hx' : x = key ∨ x ∈ st'.selectedRows := by
            simpa [handleRowSelect, Finset.mem_insert] using hx
          rcases hx' with rfl | hx'
          · unfold viewKeys
            rw [List.mem_toFinset]
            exact hk
          · exact ih hx'
      | false =>
          have hx' : x ∈ st'.selectedRows :=
            Finset.mem_of_mem_erase (by simpa [handleRowSelect] using hx)
          exact ih hx'
  | selAll st' checked hr ih =>
      intro x hx
      cases checked with
      | true =>
          rw [viewKeys_eq props (handleSelectAll props st' true).state st']
          unfold viewKeys
          simpa [handleSelectAll] using hx
      | false =>
          have hx' : x ∈ (∅ : Finset String) := by
            simp only [handleSelectAll] at hx
            exact hx
          exact absurd hx' (Finset.not_mem_empty x)

theorem c8_counterexample :
    Reachable ⟨[[("id", Value.vNum 2)]], .field "id"⟩
        (handleRowSelect ⟨[[("id", Value.vNum 1)]], .field "id"⟩ initState "1" true).state ∧
    ¬ ((handleRowSelect ⟨[[("id", Value.vNum 1)]], .field "id"⟩
          initState "1" true).state.selectedRows
        ⊆ viewKeys ⟨[[("id", Value.vNum 2)]], .field "id"⟩
          (handleRowSelect ⟨[[("id", Value.vNum 1)]], .field "id"⟩ initState "1" true).state) := by
  constructor
  · exact Reachable.newProps _ _ _
      (Reachable.rowToggle _ _ "1" true (by decide) (Reachable.init _))
  · decide

theorem c8_witness :
    (handleSelectAll ⟨[[("id", Value.vNum 7)]], .field "id"⟩ initState true).state.selectedRows
      ⊆ viewKeys ⟨[[("id", Value.vNum 7)]], .field "id"⟩
        (handleSelectAll ⟨[[("id", Value.vNum 7)]], .field "id"⟩ initState true).state :=
  c8_selection_subset_of_fixed_props _ _
    (ReachableFixed.selAll initState true ReachableFixed.init)

end DataTable
